import Mathlib

/-!
Verification development for the `ubbagent` standalone usage-metering agent.

The first part embeds `src/main.go` (the standalone entry point): flag
checking, configuration loading, persistence selection, startup, the
asynchronous HTTP error callback, and the SIGINT shutdown sequence.
External collaborators (config loader, persistence constructors, app
constructor, HTTP interface) are modelled by an environment record of
outcome functions; `mainRun` replays `main` over such an environment and
records the externally visible events in order, together with the process
outcome.
-/

namespace UbbMain

/-- Command-line flag values after `flag.Parse` (src/main.go lines 16-19).
Go's `flag.Int` yields an `int`, so `localPort` is a (signed) integer. -/
structure Flags where
  configPath : String
  stateDir : String
  noState : Bool
  localPort : Int
deriving DecidableEq, Repr

/-- The persistence value selected by `main` (src/main.go lines 46-55). -/
inductive Persistence where
  | memory : Persistence
  | disk (dir : String) : Persistence
deriving DecidableEq, Repr

/-- Externally visible events of one run of `main`, in program order. -/
inductive Event where
  | stderrLine (s : String) : Event
  | usage : Event
  | loadCall (path : String) : Event
  | validateCall (cfg : String) : Event
  | newMemoryPersistence : Event
  | newDiskPersistenceCall (dir : String) : Event
  | newAppCall (cfg : String) (p : Persistence) : Event
  | newHttpInterfaceCall (port : Int) : Event
  | httpStartCall : Event
  | listening (port : Int) : Event
  | waitForSignal : Event
  | shuttingDownMsg : Event
  | httpShutdown : Event
  | appShutdown : Event
  | glogFlush : Event
deriving DecidableEq, Repr

/-- How the process run ends: `exited c` for `os.Exit(c)`, `returned` for
`main` returning normally (process status 0 in Go). -/
inductive Outcome where
  | exited (code : Nat) : Outcome
  | returned : Outcome
deriving DecidableEq, Repr

/-- The process exit status corresponding to an outcome. -/
def exitCode : Outcome → Nat
  | .exited c => c
  | .returned => 0

/-- Outcomes of the external collaborators that `main` calls into.
`load` models `config.Load` (config payload abstracted as a string),
`validate` models `cfg.Validate()` (`some e` is an error),
`newDiskPersistence` models `persistence.NewDiskPersistence`,
`newApp` models `app.NewApp`, and `httpStart` models `rest.Start`'s
immediate (synchronous) result. -/
structure Env where
  load : String → Except String String
  validate : String → Option String
  newDiskPersistence : String → Except String Unit
  newApp : String → Persistence → Except String Unit
  httpStart : Int → Except String Unit

/-- Model of `loadConfig` (src/main.go lines 98-107): `config.Load`, then
`cfg.Validate`; each failure goes through `exitf`, which prints the message
to stderr and calls `glog.Exit`.  `glog.Exit` logs at FATAL severity with
`fatalNoStacks` set and then calls `os.Exit(1)`, so the fatal exit code
is 1.  Returns the emitted events and either the loaded config or the
fatal outcome. -/
def loadConfig (env : Env) (path : String) : List Event × Except Outcome String :=
  match env.load path with
  | .error e =>
      ([Event.loadCall path,
        Event.stderrLine ("invalid configuration file: " ++ e)],
       Except.error (Outcome.exited 1))
  | .ok cfg =>
      match env.validate cfg with
      | some e =>
          ([Event.loadCall path, Event.validateCall cfg,
            Event.stderrLine ("invalid configuration file: " ++ e)],
           Except.error (Outcome.exited 1))
      | none => ([Event.loadCall path, Event.validateCall cfg], Except.ok cfg)

/-- Model of `main` (src/main.go lines 24-82), replayed over an environment: the
three flag guards (each printing to stderr, calling `flag.Usage`, and
exiting with code 2), `loadConfig`, persistence selection by `--no-state`,
`app.NewApp`, HTTP interface construction and start, then blocking on
SIGINT and the shutdown sequence `rest.Shutdown(); a.Shutdown();
glog.Flush()` followed by `main` returning (status 0).  Failures after the
guards go through `exitf` (`glog.Exit`, status 1). -/
def mainRun (env : Env) (fl : Flags) : List Event × Outcome :=
  if fl.configPath = "" then
    ([Event.stderrLine "configuration file must be specified", Event.usage],
     Outcome.exited 2)
  else if fl.stateDir = "" ∧ fl.noState = false then
    ([Event.stderrLine "state directory must be specified (or use --no-state)",
      Event.usage],
     Outcome.exited 2)
  else if fl.localPort = 0 then
    ([Event.stderrLine "local-port must be > 0", Event.usage], Outcome.exited 2)
  else
    match loadConfig env fl.configPath with
    | (evs, Except.error out) => (evs, out)
    | (evs, Except.ok cfg) =>
      match
        (if fl.noState then
          ([Event.newMemoryPersistence], Except.ok Persistence.memory)
        else
          match env.newDiskPersistence fl.stateDir with
          | .error e =>
              ([Event.newDiskPersistenceCall fl.stateDir,
                Event.stderrLine ("startup: " ++ e)],
               Except.error (Outcome.exited 1))
          | .ok _ =>
              ([Event.newDiskPersistenceCall fl.stateDir],
               Except.ok (Persistence.disk fl.stateDir))
         : List Event × Except Outcome Persistence) with
      | (pevs, Except.error out) => (evs ++ pevs, out)
      | (pevs, Except.ok p) =>
        match env.newApp cfg p with
        | .error e =>
            (evs ++ pevs ++ [Event.newAppCall cfg p,
              Event.stderrLine ("startup: " ++ e)],
             Outcome.exited 1)
        | .ok _ =>
          match env.httpStart fl.localPort with
          | .error e =>
              (evs ++ pevs ++ [Event.newAppCall cfg p,
                Event.newHttpInterfaceCall fl.localPort, Event.httpStartCall,
                Event.stderrLine ("startup: " ++ e)],
               Outcome.exited 1)
          | .ok _ =>
              (evs ++ pevs ++ [Event.newAppCall cfg p,
                Event.newHttpInterfaceCall fl.localPort, Event.httpStartCall,
                Event.listening fl.localPort, Event.waitForSignal,
                Event.shuttingDownMsg, Event.httpShutdown, Event.appShutdown,
                Event.glogFlush],
               Outcome.returned)

/-- Asynchronous HTTP server errors handed to the callback registered in
`rest.Start` (src/main.go lines 63-67): `http.ErrServerClosed` or any
other error (such as a port-in-use failure from `ListenAndServe`). -/
inductive HttpAsyncError where
  | serverClosed : HttpAsyncError
  | other (msg : String) : HttpAsyncError
deriving DecidableEq, Repr

/-- Effect of the async error callback: either no action, or a fatal exit
printing the given line to stderr and terminating with the given status. -/
inductive CallbackEffect where
  | ignore : CallbackEffect
  | fatalExit (stderrMsg : String) (code : Nat) : CallbackEffect
deriving DecidableEq, Repr

/-- The error callback passed to `rest.Start` (src/main.go lines 63-67):
errors other than `http.ErrServerClosed` go to `exitf("http: %+v", err)`
(stderr line plus `glog.Exit`, status 1); `ErrServerClosed` is ignored. -/
def httpErrorCallback : HttpAsyncError → CallbackEffect
  | .serverClosed => CallbackEffect.ignore
  | .other m => CallbackEffect.fatalExit ("http: " ++ m) 1

/-- An environment in which every collaborator succeeds, except that
starting the HTTP listener on a non-positive port fails (as
`net.Listen` would). -/
def okEnv : Env where
  load := fun _ => Except.ok "cfg"
  validate := fun _ => none
  newDiskPersistence := fun _ => Except.ok ()
  newApp := fun _ _ => Except.ok ()
  httpStart := fun p => if 0 < p then Except.ok () else Except.error "listen: invalid port"

/-- An environment in which `config.Load` fails and every other
collaborator succeeds. -/
def loadFailEnv : Env where
  load := fun _ => Except.error "parse error"
  validate := fun _ => none
  newDiskPersistence := fun _ => Except.ok ()
  newApp := fun _ _ => Except.ok ()
  httpStart := fun _ => Except.ok ()

/-- The persistence value `main` selects once the guards pass and disk
construction succeeds (src/main.go lines 46-55). -/
def chosenPersistence (fl : Flags) : Persistence :=
  if fl.noState then Persistence.memory else Persistence.disk fl.stateDir

end UbbMain

/-!
The Aggregator of the reporting pipeline.  The aggregator's implementation
is not part of the sources of this snapshot (only `DESIGN.md` describes
it), so the component is modelled from the specification, faithful to its
words; every definition below that does so says what is missing.
-/

namespace UbbAgg

/-- Modelled from the spec: the aggregator sources are missing; a
`ScalarValue` is "a tagged variant over the configured numeric kinds
(e.g. `int64`, `double`)"; the double kind is modelled with exact
rationals. -/
inductive ScalarValue where
  | int64 (v : Int) : ScalarValue
  | double (v : Rat) : ScalarValue
deriving DecidableEq, Repr

/-- The value kinds the configuration can enumerate for a metric. -/
inductive ValueKind where
  | int64Kind : ValueKind
  | doubleKind : ValueKind
deriving DecidableEq, Repr

/-- The kind tag of a scalar value. -/
def valueKind : ScalarValue → ValueKind
  | .int64 _ => ValueKind.int64Kind
  | .double _ => ValueKind.doubleKind

/-- Modelled from the spec: the aggregator sources are missing; combining
adds values of equal kind ("value is the sum of values").  The schema
check makes a kind mismatch unreachable; on a mismatch the first argument
is kept. -/
def addValue : ScalarValue → ScalarValue → ScalarValue
  | .int64 a, .int64 b => ScalarValue.int64 (a + b)
  | .double a, .double b => ScalarValue.double (a + b)
  | a, _ => a

/-- Modelled from the spec: labels are "a mapping from string to string;
order is irrelevant", and reports aggregate when they "contain the same
set of labels"; two label lists denote the same label set when each is
contained in the other. -/
def labelSetEq (a b : List (String × String)) : Bool :=
  a.all (fun x => decide (x ∈ b)) && b.all (fun x => decide (x ∈ a))

/-- Modelled from the spec: the aggregator bucket key is the pair
`(name, normalized-labels)`; two keys agree when the names are equal and
the label sets coincide. -/
def sameKey (n1 : String) (l1 : List (String × String))
    (n2 : String) (l2 : List (String × String)) : Bool :=
  n1 == n2 && labelSetEq l1 l2

/-- Modelled from the spec: the aggregator sources are missing; a
`MetricReport` is `{name, value, startTime, endTime, labels}` with
instants modelled as integers. -/
structure MetricReport where
  name : String
  value : ScalarValue
  startTime : Int
  endTime : Int
  labels : List (String × String)
deriving DecidableEq, Repr

/-- The configured metric schema: a set of `{name, valueType}` pairs. -/
abbrev MetricSchema := List (String × ValueKind)

/-- Modelled from the spec: the aggregator sources are missing; the
aggregator state maps each bucket key to an in-progress aggregate (the key
of an aggregate is its own name and label set) and keeps a
`lastAcceptedEndTime` per bucket. -/
structure AggregatorState where
  buckets : List MetricReport
  lastAccepted : List ((String × List (String × String)) × Int)
deriving DecidableEq, Repr

/-- The `lastAcceptedEndTime` recorded for a bucket key, if any. -/
def lastOf (st : AggregatorState) (n : String) (l : List (String × String)) : Option Int :=
  (st.lastAccepted.find? (fun kv => sameKey kv.1.1 kv.1.2 n l)).map (fun kv => kv.2)

/-- Replace the `lastAcceptedEndTime` of the bucket key `(n, l)` (or add
an entry for it). -/
def setLast (m : List ((String × List (String × String)) × Int))
    (n : String) (l : List (String × String)) (t : Int) :
    List ((String × List (String × String)) × Int) :=
  match m with
  | [] => [((n, l), t)]
  | kv :: rest =>
    if sameKey kv.1.1 kv.1.2 n l then (kv.1, t) :: rest
    else kv :: setLast rest n l t

/-- Modelled from the spec: the aggregator sources are missing; the
closure rule combines two reports of equal key into one whose "value is
the sum of values, `startTime = min(starts)`, `endTime = max(ends)`,
labels preserved". -/
def combine (a b : MetricReport) : MetricReport :=
  { name := a.name
    value := addValue a.value b.value
    startTime := min a.startTime b.startTime
    endTime := max a.endTime b.endTime
    labels := a.labels }

/-- Insert a report into the bucket list: combine it with the first bucket
of the same key, or append it as a new bucket. -/
def insertReport (bs : List MetricReport) (r : MetricReport) : List MetricReport :=
  match bs with
  | [] => [r]
  | b :: rest =>
    if sameKey b.name b.labels r.name r.labels then combine b r :: rest
    else b :: insertReport rest r

/-- Modelled from the spec: the aggregator sources are missing;
aggregating a window of reports folds each into its bucket. -/
def aggregate (rs : List MetricReport) : List MetricReport :=
  rs.foldl insertReport []

/-- Rejection reasons of `accept` (spec §4.6). -/
inductive RejectReason where
  | unknownMetric : RejectReason
  | typeMismatch : RejectReason
  | overlappingWindow : RejectReason
  | invalidRange : RejectReason
deriving DecidableEq, Repr

/-- Result of one `accept` call. -/
inductive AcceptResult where
  | accepted : AcceptResult
  | rejected (reason : RejectReason) : AcceptResult
deriving DecidableEq, Repr

/-- Modelled from the spec: the aggregator sources are missing; `accept`
rejects on unknown metric name, value-kind mismatch, overlapping window
(`startTime < lastAcceptedEndTime[bucket]`) or invalid range
(`endTime < startTime`); otherwise it combines the report into its bucket
and updates `lastAcceptedEndTime[bucket] := max(prev, endTime)`.
Rejection returns the state unchanged. -/
def accept (schema : MetricSchema) (st : AggregatorState) (r : MetricReport) :
    AggregatorState × AcceptResult :=
  match schema.lookup r.name with
  | none => (st, AcceptResult.rejected RejectReason.unknownMetric)
  | some k =>
    if valueKind r.value ≠ k then (st, AcceptResult.rejected RejectReason.typeMismatch)
    else
      match lastOf st r.name r.labels with
      | some t =>
        if r.startTime < t then (st, AcceptResult.rejected RejectReason.overlappingWindow)
        else if r.endTime < r.startTime then (st, AcceptResult.rejected RejectReason.invalidRange)
        else
          ({ buckets := insertReport st.buckets r
             lastAccepted := setLast st.lastAccepted r.name r.labels (max t r.endTime) },
           AcceptResult.accepted)
      | none =>
        if r.endTime < r.startTime then (st, AcceptResult.rejected RejectReason.invalidRange)
        else
          ({ buckets := insertReport st.buckets r
             lastAccepted := setLast st.lastAccepted r.name r.labels r.endTime },
           AcceptResult.accepted)

/-- Fold a list of reports through `accept`, keeping the final state. -/
def acceptAll (schema : MetricSchema) (st : AggregatorState) : List MetricReport → AggregatorState
  | [] => st
  | r :: rs => acceptAll schema (accept schema st r).1 rs

/-- The aggregator state before report `n` of the sequence is offered. -/
def stateAt (schema : MetricSchema) (st0 : AggregatorState) (rs : List MetricReport) (n : Nat) :
    AggregatorState :=
  acceptAll schema st0 (rs.take n)

/-- The result `accept` returns for report `n` of the sequence. -/
def resultAt (schema : MetricSchema) (st0 : AggregatorState) (rs : List MetricReport) (n : Nat) :
    Option AcceptResult :=
  (rs[n]?).map (fun r => (accept schema (stateAt schema st0 rs n) r).2)

/-- The reports of a window that belong to the bucket key `(n, l)`. -/
def keyFilter (rs : List MetricReport) (n : String) (l : List (String × String)) :
    List MetricReport :=
  rs.filter (fun r => sameKey r.name r.labels n l)

/-- The aggregate produced for the bucket key `(n, l)`, if any. -/
def lookupAgg (bs : List MetricReport) (n : String) (l : List (String × String)) :
    Option MetricReport :=
  bs.find? (fun b => sameKey b.name b.labels n l)

/-- Minimum start time over a list of reports (order-independent fold). -/
def minStart? (rs : List MetricReport) : Option Int :=
  rs.foldl (fun acc r => some (match acc with | none => r.startTime | some m => min m r.startTime)) none

/-- Maximum end time over a list of reports (order-independent fold). -/
def maxEnd? (rs : List MetricReport) : Option Int :=
  rs.foldl (fun acc r => some (match acc with | none => r.endTime | some m => max m r.endTime)) none

/-- The `int64` payloads among a list of reports. -/
def intVals (rs : List MetricReport) : List Int :=
  rs.filterMap (fun r => match r.value with | .int64 v => some v | _ => none)

/-- The `double` payloads among a list of reports. -/
def ratVals (rs : List MetricReport) : List Rat :=
  rs.filterMap (fun r => match r.value with | .double v => some v | _ => none)

/-- `v` is the sum of the values of `rs`, kind-wise. -/
def sumOfValues (rs : List MetricReport) (v : ScalarValue) : Prop :=
  ((∀ r ∈ rs, valueKind r.value = ValueKind.int64Kind) → v = ScalarValue.int64 (intVals rs).sum) ∧
  ((∀ r ∈ rs, valueKind r.value = ValueKind.doubleKind) → v = ScalarValue.double (ratVals rs).sum)

/-- All reports of one bucket key carry the same value kind (what the
aggregator's schema check guarantees for the reports of a window). -/
def alignedOn (rs : List MetricReport) : Prop :=
  ∀ r ∈ rs, ∀ s ∈ rs, sameKey r.name r.labels s.name s.labels = true →
    valueKind r.value = valueKind s.value

/-- The observable per-key summary of an aggregated window: value, start
time and end time of the bucket for the key, if present. -/
def keySummary (rs : List MetricReport) (n : String) (l : List (String × String)) :
    Option (ScalarValue × Int × Int) :=
  (lookupAgg (aggregate rs) n l).map (fun b => (b.value, b.startTime, b.endTime))

end UbbAgg

/-!
The RetryingSender and Endpoint of the reporting pipeline.  Their
implementations are not part of the sources of this snapshot (only
`DESIGN.md` describes them), so they are modelled from the specification.
-/

namespace UbbSender

/-- Modelled from the spec: the endpoint sources are missing; an
`EndpointReport` is an endpoint-specific payload built from a
`MetricBatch` that carries the dedup identifier the remote requires. -/
structure EndpointReport where
  dedupId : String
  payload : String
deriving DecidableEq, Repr

/-- Modelled from the spec: the endpoint sources are missing;
`buildReport` fixes the dedup identifier (e.g. a fresh UUID supplied at
build time) into the report, "then fixed into the payload so retries
reuse it". -/
def buildReport (batchPayload : String) (freshId : String) : EndpointReport :=
  { dedupId := freshId, payload := batchPayload }

/-- Modelled from the spec: a queue entry of a RetryingSender:
`{endpointReport, firstAttempt, nextAttempt, failureCount}`. -/
structure QueueEntry where
  report : EndpointReport
  firstAttempt : Int
  nextAttempt : Int
  failureCount : Nat
deriving DecidableEq, Repr

/-- The configured backoff parameters of a RetryingSender. -/
structure RetryConfig where
  baseDelay : Int
  maxDelay : Int
  multiplier : Int
  maxAttempts : Nat
  maxLifetime : Int
deriving DecidableEq, Repr

/-- Modelled from the spec: the sender sources are missing; the backoff
delay is `min(max, base * multiplier^failureCount)` (jitter modelled as
zero). -/
def backoffDelay (cfg : RetryConfig) (failureCount : Nat) : Int :=
  min cfg.maxDelay (cfg.baseDelay * cfg.multiplier ^ failureCount)

/-- Outcome of one `Endpoint.send` call. -/
inductive SendResult where
  | success : SendResult
  | transientFailure : SendResult
  | permanentFailure : SendResult
deriving DecidableEq, Repr

/-- Modelled from the spec: the sender sources are missing; the worker
drains the queue head-first without leapfrogging a delayed head: if
`now < nextAttempt` of the head it waits; on success or permanent failure
the head is removed; on a transient failure the head is removed when
attempts or lifetime are exhausted, and otherwise stays at the head with
`failureCount` bumped and `nextAttempt` recomputed -- its report is left
untouched. -/
def workerStep (cfg : RetryConfig) (now : Int) (res : SendResult)
    (q : List QueueEntry) : List QueueEntry :=
  match q with
  | [] => []
  | e :: rest =>
    if now < e.nextAttempt then e :: rest
    else
      match res with
      | .success => rest
      | .permanentFailure => rest
      | .transientFailure =>
        if cfg.maxAttempts ≤ e.failureCount + 1 ∨ cfg.maxLifetime ≤ now - e.firstAttempt then rest
        else
          { e with failureCount := e.failureCount + 1
                   nextAttempt := now + backoffDelay cfg (e.failureCount + 1) } :: rest

/-- Modelled from the spec: the sender sources are missing; `enqueue`
builds the `EndpointReport` via the endpoint and appends a fresh
`QueueEntry`. -/
def enqueueReport (batchPayload freshId : String) (now : Int)
    (q : List QueueEntry) : List QueueEntry :=
  q ++ [{ report := buildReport batchPayload freshId
          firstAttempt := now
          nextAttempt := now
          failureCount := 0 }]

/-- One input to the sender loop: a worker wakeup carrying the outcome the
endpoint returns for the attempt, or an enqueue of a new batch. -/
inductive SenderInput where
  | work (now : Int) (res : SendResult) : SenderInput
  | enq (batchPayload freshId : String) (now : Int) : SenderInput
deriving DecidableEq, Repr

/-- One transition of the sender queue. -/
def senderStep (cfg : RetryConfig) (q : List QueueEntry) : SenderInput → List QueueEntry
  | .work now res => workerStep cfg now res q
  | .enq b i now => enqueueReport b i now q

/-- The sender queue after a sequence of inputs. -/
def senderRun (cfg : RetryConfig) (q : List QueueEntry) : List SenderInput → List QueueEntry
  | [] => q
  | inp :: rest => senderRun cfg (senderStep cfg q inp) rest

/-- The endpoint reports built by the enqueues among a sequence of
inputs. -/
def builtReports : List SenderInput → List EndpointReport
  | [] => []
  | SenderInput.work _ _ :: rest => builtReports rest
  | SenderInput.enq b i _ :: rest => buildReport b i :: builtReports rest

end UbbSender

/-!
Theorems.  Shared helper lemmas come first, then one theorem per claim
(with a closed witness where the theorem carries hypotheses).
-/

namespace UbbMain

/-- The event list of `loadConfig` always begins with the load call. -/
theorem loadConfig_head (env : Env) (path : String) :
    ∃ tl res, loadConfig env path = (Event.loadCall path :: tl, res) := by
  unfold loadConfig
  split
  · exact ⟨_, _, rfl⟩
  · split
    · exact ⟨_, _, rfl⟩
    · exact ⟨_, _, rfl⟩

/-- When loading and validation succeed, `loadConfig` returns the config. -/
theorem loadConfig_ok (env : Env) (path cfg : String)
    (hl : env.load path = Except.ok cfg) (hv : env.validate cfg = none) :
    loadConfig env path = ([Event.loadCall path, Event.validateCall cfg], Except.ok cfg) := by
  unfold loadConfig
  rw [hl]
  simp [hv]

/-- C4: with an empty `--config`, or an empty `--state-dir` while
`--no-state` is unset, `main` prints a usage message and exits with code 2
before loading the configuration or constructing any persistence; in every
other combination of those flags it proceeds past these two checks,
reaching the local-port guard and, when that passes too, the configuration
load. -/
theorem main_required_flag_checks (env : Env) (fl : Flags) :
    (fl.configPath = "" →
      mainRun env fl =
        ([Event.stderrLine "configuration file must be specified", Event.usage],
         Outcome.exited 2)) ∧
    (fl.configPath ≠ "" → fl.stateDir = "" → fl.noState = false →
      mainRun env fl =
        ([Event.stderrLine "state directory must be specified (or use --no-state)",
          Event.usage],
         Outcome.exited 2)) ∧
    (fl.configPath ≠ "" → (fl.stateDir ≠ "" ∨ fl.noState = true) →
      (fl.localPort = 0 ∧
        mainRun env fl =
          ([Event.stderrLine "local-port must be > 0", Event.usage], Outcome.exited 2)) ∨
      (fl.localPort ≠ 0 ∧
        (mainRun env fl).1.head? = some (Event.loadCall fl.configPath))) := by
  refine ⟨?_, ?_, ?_⟩
  · intro h1
    simp [mainRun, h1]
  · intro h1 h2 h3
    simp [mainRun, h1, h2, h3]
  · intro h1 h2
    have h2' : ¬(fl.stateDir = "" ∧ fl.noState = false) := by
      rcases h2 with h | h <;> simp [h]
    by_cases hp : fl.localPort = 0
    · left
      refine ⟨hp, ?_⟩
      simp [mainRun, h1, h2', hp]
    · right
      refine ⟨hp, ?_⟩
      obtain ⟨tl, res, hlc⟩ := loadConfig_head env fl.configPath
      unfold mainRun
      rw [if_neg h1, if_neg h2', if_neg hp, hlc]
      cases res with
      | error out => simp
      | ok cfg =>
        by_cases hn : fl.noState
        · cases hA : env.newApp cfg Persistence.memory with
          | error e => simp [hn, hA]
          | ok u =>
            cases hS : env.httpStart fl.localPort with
            | error e => simp [hn, hA, hS]
            | ok v => simp [hn, hA, hS]
        · cases hD : env.newDiskPersistence fl.stateDir with
          | error e => simp [hn, hD]
          | ok u =>
            cases hA : env.newApp cfg (Persistence.disk fl.stateDir) with
            | error e => simp [hn, hD, hA]
            | ok w =>
              cases hS : env.httpStart fl.localPort with
              | error e => simp [hn, hD, hA, hS]
              | ok v => simp [hn, hD, hA, hS]

/-- Closed witness for the flag-check theorem at concrete invocations. -/
theorem main_required_flag_checks_witness :
    mainRun okEnv ⟨"", "s", false, 3456⟩ =
      ([Event.stderrLine "configuration file must be specified", Event.usage],
       Outcome.exited 2) ∧
    mainRun okEnv ⟨"c", "", false, 3456⟩ =
      ([Event.stderrLine "state directory must be specified (or use --no-state)",
        Event.usage],
       Outcome.exited 2) ∧
    ((3456 : Int) ≠ 0 ∧
      (mainRun okEnv ⟨"c", "s", false, 3456⟩).1.head? = some (Event.loadCall "c")) := by
  refine ⟨?_, ?_, ?_⟩
  · exact (main_required_flag_checks okEnv ⟨"", "s", false, 3456⟩).1 rfl
  · exact (main_required_flag_checks okEnv ⟨"c", "", false, 3456⟩).2.1 (by decide) rfl rfl
  · have h := (main_required_flag_checks okEnv ⟨"c", "s", false, 3456⟩).2.2
      (by decide) (Or.inl (by decide))
    rcases h with ⟨h0, _⟩ | h
    · exact absurd h0 (by decide)
    · exact h

/-- C3: the guard at src/main.go lines 39-43 tests `*localPort == 0` while
its own message demands `local-port must be > 0`; a negative port is a bad
invocation by that message yet slips past the guard: `main` then loads the
configuration, constructs persistence and proceeds to startup instead of
printing a usage message and exiting with code 2. -/
theorem main_negative_port_reaches_startup :
    Event.usage ∉ (mainRun okEnv ⟨"c", "s", false, -1⟩).1 ∧
    Event.loadCall "c" ∈ (mainRun okEnv ⟨"c", "s", false, -1⟩).1 ∧
    Event.newDiskPersistenceCall "s" ∈ (mainRun okEnv ⟨"c", "s", false, -1⟩).1 ∧
    (mainRun okEnv ⟨"c", "s", false, -1⟩).2 = Outcome.exited 1 := by
  decide

/-- C9: an asynchronous HTTP server error other than `ErrServerClosed`
makes the registered callback terminate the process with a stderr
diagnostic and a fatal exit, while `ErrServerClosed` is silently ignored;
in particular an asynchronous port-in-use error is fatal. -/
theorem http_async_error_policy :
    (∀ e, e ≠ HttpAsyncError.serverClosed →
      ∃ m, httpErrorCallback e = CallbackEffect.fatalExit m 1) ∧
    httpErrorCallback HttpAsyncError.serverClosed = CallbackEffect.ignore ∧
    httpErrorCallback (HttpAsyncError.other "listen tcp :3456: bind: address already in use") =
      CallbackEffect.fatalExit "http: listen tcp :3456: bind: address already in use" 1 := by
  refine ⟨?_, rfl, rfl⟩
  intro e he
  cases e with
  | serverClosed => exact absurd rfl he
  | other m => exact ⟨_, rfl⟩

/-- Closed witness for the async-error policy at a port-in-use error. -/
theorem http_async_error_policy_witness :
    ∃ m, httpErrorCallback (HttpAsyncError.other "port in use") = CallbackEffect.fatalExit m 1 :=
  http_async_error_policy.1 (HttpAsyncError.other "port in use") (by decide)

end UbbMain

namespace UbbMain

/-- C5: persistence selection is decided solely by `--no-state`: when set,
`main` constructs the in-memory persistence and the `--state-dir` value is
ignored; otherwise it constructs the disk persistence rooted at
`--state-dir` and exits fatally if that construction fails. -/
theorem main_persistence_selection (env : Env) (fl : Flags) (cfg : String)
    (h1 : fl.configPath ≠ "") (hp : fl.localPort ≠ 0)
    (hl : env.load fl.configPath = Except.ok cfg) (hv : env.validate cfg = none) :
    (fl.noState = true →
      Event.newMemoryPersistence ∈ (mainRun env fl).1 ∧
      (∀ d, Event.newDiskPersistenceCall d ∉ (mainRun env fl).1) ∧
      (∀ s, mainRun env { fl with stateDir := s } = mainRun env fl)) ∧
    (fl.noState = false → fl.stateDir ≠ "" →
      Event.newDiskPersistenceCall fl.stateDir ∈ (mainRun env fl).1 ∧
      Event.newMemoryPersistence ∉ (mainRun env fl).1 ∧
      (∀ e, env.newDiskPersistence fl.stateDir = Except.error e →
        (mainRun env fl).2 = Outcome.exited 1 ∧
        ∀ c p, Event.newAppCall c p ∉ (mainRun env fl).1)) := by
  have hlc := loadConfig_ok env fl.configPath cfg hl hv
  constructor
  · intro hn
    have h2' : ¬(fl.stateDir = "" ∧ fl.noState = false) := by simp [hn]
    refine ⟨?_, ?_, ?_⟩
    · unfold mainRun
      rw [if_neg h1, if_neg h2', if_neg hp, hlc]
      cases hA : env.newApp cfg Persistence.memory with
      | error e => simp [hn, hA]
      | ok u =>
        cases hS : env.httpStart fl.localPort with
        | error e => simp [hn, hA, hS]
        | ok v => simp [hn, hA, hS]
    · intro d
      unfold mainRun
      rw [if_neg h1, if_neg h2', if_neg hp, hlc]
      cases hA : env.newApp cfg Persistence.memory with
      | error e => simp [hn, hA]
      | ok u =>
        cases hS : env.httpStart fl.localPort with
        | error e => simp [hn, hA, hS]
        | ok v => simp [hn, hA, hS]
    · intro s
      have h2s : ¬((s : String) = "" ∧ fl.noState = false) := by simp [hn]
      have hlcs := loadConfig_ok env fl.configPath cfg hl hv
      unfold mainRun
      rw [if_neg h1, if_neg h2', if_neg hp]
      rw [show ({ fl with stateDir := s } : Flags).configPath = fl.configPath from rfl,
          show ({ fl with stateDir := s } : Flags).localPort = fl.localPort from rfl,
          show ({ fl with stateDir := s } : Flags).noState = fl.noState from rfl]
      rw [if_neg h1, if_neg (by simpa using h2s), if_neg hp, hlc]
      simp [hn]
  · intro hn hs
    have h2' : ¬(fl.stateDir = "" ∧ fl.noState = false) := by simp [hs]
    refine ⟨?_, ?_, ?_⟩
    · unfold mainRun
      rw [if_neg h1, if_neg h2', if_neg hp, hlc]
      cases hD : env.newDiskPersistence fl.stateDir with
      | error e => simp [hn, hD]
      | ok u =>
        cases hA : env.newApp cfg (Persistence.disk fl.stateDir) with
        | error e => simp [hn, hD, hA]
        | ok w =>
          cases hS : env.httpStart fl.localPort with
          | error e => simp [hn, hD, hA, hS]
          | ok v => simp [hn, hD, hA, hS]
    · unfold mainRun
      rw [if_neg h1, if_neg h2', if_neg hp, hlc]
      cases hD : env.newDiskPersistence fl.stateDir with
      | error e => simp [hn, hD]
      | ok u =>
        cases hA : env.newApp cfg (Persistence.disk fl.stateDir) with
        | error e => simp [hn, hD, hA]
        | ok w =>
          cases hS : env.httpStart fl.localPort with
          | error e => simp [hn, hD, hA, hS]
          | ok v => simp [hn, hD, hA, hS]
    · intro e hD
      unfold mainRun
      rw [if_neg h1, if_neg h2', if_neg hp, hlc]
      constructor
      · simp [hn, hD]
      · intro c p
        simp [hn, hD]

/-- Closed witness for persistence selection, in both flag polarities. -/
theorem main_persistence_selection_witness :
    (Event.newMemoryPersistence ∈ (mainRun okEnv ⟨"c", "ignored", true, 3456⟩).1 ∧
      (∀ d, Event.newDiskPersistenceCall d ∉ (mainRun okEnv ⟨"c", "ignored", true, 3456⟩).1) ∧
      (∀ s, mainRun okEnv { configPath := "c", stateDir := s, noState := true, localPort := 3456 } =
        mainRun okEnv ⟨"c", "ignored", true, 3456⟩)) ∧
    Event.newDiskPersistenceCall "s" ∈ (mainRun okEnv ⟨"c", "s", false, 3456⟩).1 := by
  constructor
  · exact (main_persistence_selection okEnv ⟨"c", "ignored", true, 3456⟩ "cfg"
      (by decide) (by decide) rfl rfl).1 rfl
  · exact ((main_persistence_selection okEnv ⟨"c", "s", false, 3456⟩ "cfg"
      (by decide) (by decide) rfl rfl).2 rfl (by decide)).1

/-- C6: after a successful startup, receiving SIGINT makes `main` shut the
HTTP interface down first, then the App, then flush the logs, and the
process exits with status 0. -/
theorem main_sigint_shutdown_order (env : Env) (fl : Flags) (cfg : String)
    (h1 : fl.configPath ≠ "") (h2 : ¬(fl.stateDir = "" ∧ fl.noState = false))
    (hp : fl.localPort ≠ 0)
    (hl : env.load fl.configPath = Except.ok cfg) (hv : env.validate cfg = none)
    (hd : fl.noState = false → env.newDiskPersistence fl.stateDir = Except.ok ())
    (ha : env.newApp cfg (chosenPersistence fl) = Except.ok ())
    (hs : env.httpStart fl.localPort = Except.ok ()) :
    ∃ pre, mainRun env fl =
      (pre ++ [Event.waitForSignal, Event.shuttingDownMsg, Event.httpShutdown,
        Event.appShutdown, Event.glogFlush], Outcome.returned) ∧
      exitCode (mainRun env fl).2 = 0 := by
  have hlc := loadConfig_ok env fl.configPath cfg hl hv
  unfold mainRun
  rw [if_neg h1, if_neg h2, if_neg hp, hlc]
  by_cases hn : fl.noState
  · have ha' : env.newApp cfg Persistence.memory = Except.ok () := by
      have : chosenPersistence fl = Persistence.memory := by simp [chosenPersistence, hn]
      rwa [this] at ha
    refine ⟨[Event.loadCall fl.configPath, Event.validateCall cfg,
      Event.newMemoryPersistence, Event.newAppCall cfg Persistence.memory,
      Event.newHttpInterfaceCall fl.localPort, Event.httpStartCall,
      Event.listening fl.localPort], ?_⟩
    simp [hn, ha', hs, exitCode]
  · have hn' : fl.noState = false := by simpa using hn
    have ha' : env.newApp cfg (Persistence.disk fl.stateDir) = Except.ok () := by
      have : chosenPersistence fl = Persistence.disk fl.stateDir := by
        simp [chosenPersistence, hn']
      rwa [this] at ha
    refine ⟨[Event.loadCall fl.configPath, Event.validateCall cfg,
      Event.newDiskPersistenceCall fl.stateDir,
      Event.newAppCall cfg (Persistence.disk fl.stateDir),
      Event.newHttpInterfaceCall fl.localPort, Event.httpStartCall,
      Event.listening fl.localPort], ?_⟩
    simp [hn, hd hn', ha', hs, exitCode]

/-- Closed witness for the shutdown order at a concrete invocation. -/
theorem main_sigint_shutdown_order_witness :
    ∃ pre, mainRun okEnv ⟨"c", "s", false, 3456⟩ =
      (pre ++ [Event.waitForSignal, Event.shuttingDownMsg, Event.httpShutdown,
        Event.appShutdown, Event.glogFlush], Outcome.returned) ∧
      exitCode (mainRun okEnv ⟨"c", "s", false, 3456⟩).2 = 0 :=
  main_sigint_shutdown_order okEnv ⟨"c", "s", false, 3456⟩ "cfg"
    (by decide) (by decide) (by decide) rfl rfl (fun _ => rfl) rfl rfl

end UbbMain

namespace UbbMain

/-- C7 counterexample: a configuration file that fails to load makes the
process exit through `exitf`/`glog.Exit` with status 1, not with code 2 as
the claim states. -/
theorem main_config_failure_exit_code_counterexample :
    (mainRun loadFailEnv ⟨"c", "s", false, 3456⟩).2 = Outcome.exited 1 ∧
    (mainRun loadFailEnv ⟨"c", "s", false, 3456⟩).2 ≠ Outcome.exited 2 ∧
    Event.stderrLine "invalid configuration file: parse error" ∈
      (mainRun loadFailEnv ⟨"c", "s", false, 3456⟩).1 := by
  decide

/-- C7 (amended): if the configuration fails to load or fails validation,
the process writes a diagnostic to stderr and exits fatally with the
nonzero status 1 (via `glog.Exit`), and no App, persistence, or HTTP
interface is started. -/
theorem main_config_failure_fatal (env : Env) (fl : Flags)
    (h1 : fl.configPath ≠ "") (h2 : ¬(fl.stateDir = "" ∧ fl.noState = false))
    (hp : fl.localPort ≠ 0)
    (hfail : (∃ e, env.load fl.configPath = Except.error e) ∨
      (∃ cfg e, env.load fl.configPath = Except.ok cfg ∧ env.validate cfg = some e)) :
    (mainRun env fl).2 = Outcome.exited 1 ∧
    exitCode (mainRun env fl).2 ≠ 0 ∧
    (∃ m, Event.stderrLine ("invalid configuration file: " ++ m) ∈ (mainRun env fl).1) ∧
    Event.newMemoryPersistence ∉ (mainRun env fl).1 ∧
    (∀ d, Event.newDiskPersistenceCall d ∉ (mainRun env fl).1) ∧
    (∀ c p, Event.newAppCall c p ∉ (mainRun env fl).1) ∧
    Event.httpStartCall ∉ (mainRun env fl).1 := by
  unfold mainRun
  rw [if_neg h1, if_neg h2, if_neg hp]
  rcases hfail with ⟨e, he⟩ | ⟨cfg, e, hc, he⟩
  · have hlc : loadConfig env fl.configPath =
        ([Event.loadCall fl.configPath,
          Event.stderrLine ("invalid configuration file: " ++ e)],
         Except.error (Outcome.exited 1)) := by
      unfold loadConfig
      rw [he]
    rw [hlc]
    refine ⟨rfl, by simp [exitCode], ⟨e, by simp⟩, by simp, ?_, ?_, by simp⟩
    · intro d
      simp
    · intro c p
      simp
  · have hlc : loadConfig env fl.configPath =
        ([Event.loadCall fl.configPath, Event.validateCall cfg,
          Event.stderrLine ("invalid configuration file: " ++ e)],
         Except.error (Outcome.exited 1)) := by
      unfold loadConfig
      rw [hc]
      simp [he]
    rw [hlc]
    refine ⟨rfl, by simp [exitCode], ⟨e, by simp⟩, by simp, ?_, ?_, by simp⟩
    · intro d
      simp
    · intro c p
      simp

/-- Closed witness for the amended C7 theorem at a failing load. -/
theorem main_config_failure_fatal_witness :
    (mainRun loadFailEnv ⟨"c", "s", false, 3456⟩).2 = Outcome.exited 1 ∧
    exitCode (mainRun loadFailEnv ⟨"c", "s", false, 3456⟩).2 ≠ 0 ∧
    (∃ m, Event.stderrLine ("invalid configuration file: " ++ m) ∈
      (mainRun loadFailEnv ⟨"c", "s", false, 3456⟩).1) ∧
    Event.newMemoryPersistence ∉ (mainRun loadFailEnv ⟨"c", "s", false, 3456⟩).1 ∧
    (∀ d, Event.newDiskPersistenceCall d ∉ (mainRun loadFailEnv ⟨"c", "s", false, 3456⟩).1) ∧
    (∀ c p, Event.newAppCall c p ∉ (mainRun loadFailEnv ⟨"c", "s", false, 3456⟩).1) ∧
    Event.httpStartCall ∉ (mainRun loadFailEnv ⟨"c", "s", false, 3456⟩).1 :=
  main_config_failure_fatal loadFailEnv ⟨"c", "s", false, 3456⟩
    (by decide) (by decide) (by decide) (Or.inl ⟨"parse error", rfl⟩)

/-- C10: `app.NewApp` is only ever invoked with a configuration that has
passed both `config.Load` and `cfg.Validate`: whenever the run of `main`
contains a `NewApp` call with config `c`, loading the configured path
returned `c` and validation of `c` succeeded. -/
theorem newApp_only_validated_config (env : Env) (fl : Flags) (c : String) (p : Persistence)
    (hmem : Event.newAppCall c p ∈ (mainRun env fl).1) :
    env.load fl.configPath = Except.ok c ∧ env.validate c = none := by
  by_cases h1 : fl.configPath = ""
  · simp [mainRun, h1] at hmem
  · by_cases h2 : fl.stateDir = "" ∧ fl.noState = false
    · simp [mainRun, h1, h2] at hmem
    · by_cases hp : fl.localPort = 0
      · simp [mainRun, h1, h2, hp] at hmem
      · unfold mainRun at hmem
        rw [if_neg h1, if_neg h2, if_neg hp] at hmem
        cases hL : env.load fl.configPath with
        | error e =>
          have hlc : loadConfig env fl.configPath =
              ([Event.loadCall fl.configPath,
                Event.stderrLine ("invalid configuration file: " ++ e)],
               Except.error (Outcome.exited 1)) := by
            unfold loadConfig
            rw [hL]
          rw [hlc] at hmem
          simp at hmem
        | ok cfg =>
          cases hV : env.validate cfg with
          | some e =>
            have hlc : loadConfig env fl.configPath =
                ([Event.loadCall fl.configPath, Event.validateCall cfg,
                  Event.stderrLine ("invalid configuration file: " ++ e)],
                 Except.error (Outcome.exited 1)) := by
              unfold loadConfig
              rw [hL]
              simp [hV]
            rw [hlc] at hmem
            simp at hmem
          | none =>
            rw [loadConfig_ok env fl.configPath cfg hL hV] at hmem
            by_cases hn : fl.noState
            · cases hA : env.newApp cfg Persistence.memory with
              | error e =>
                simp [hn, hA] at hmem
                obtain ⟨hc, _⟩ := hmem
                subst hc
                exact ⟨rfl, hV⟩
              | ok u =>
                cases hS : env.httpStart fl.localPort with
                | error e =>
                  simp [hn, hA, hS] at hmem
                  obtain ⟨hc, _⟩ := hmem
                  subst hc
                  exact ⟨rfl, hV⟩
                | ok v =>
                  simp [hn, hA, hS] at hmem
                  obtain ⟨hc, _⟩ := hmem
                  subst hc
                  exact ⟨rfl, hV⟩
            · cases hD : env.newDiskPersistence fl.stateDir with
              | error e => simp [hn, hD] at hmem
              | ok u =>
                cases hA : env.newApp cfg (Persistence.disk fl.stateDir) with
                | error e =>
                  simp [hn, hD, hA] at hmem
                  obtain ⟨hc, _⟩ := hmem
                  subst hc
                  exact ⟨rfl, hV⟩
                | ok w =>
                  cases hS : env.httpStart fl.localPort with
                  | error e =>
                    simp [hn, hD, hA, hS] at hmem
                    obtain ⟨hc, _⟩ := hmem
                    subst hc
                    exact ⟨rfl, hV⟩
                  | ok v =>
                    simp [hn, hD, hA, hS] at hmem
                    obtain ⟨hc, _⟩ := hmem
                    subst hc
                    exact ⟨rfl, hV⟩

/-- Closed witness: at a concrete run whose trace contains the `NewApp`
call, the loaded configuration indeed passed both steps. -/
theorem newApp_only_validated_config_witness :
    okEnv.load "c" = Except.ok "cfg" ∧ okEnv.validate "cfg" = none :=
  newApp_only_validated_config okEnv ⟨"c", "", true, 3456⟩ "cfg" Persistence.memory
    (by decide)

end UbbMain

namespace UbbSender

/-- Every entry surviving a worker step carries the report of an entry
already on the queue: a retry bumps `failureCount` and `nextAttempt` but
never touches the `EndpointReport`. -/
theorem workerStep_preserves_reports (cfg : RetryConfig) (now : Int) (res : SendResult)
    (q : List QueueEntry) (e : QueueEntry) (he : e ∈ workerStep cfg now res q) :
    ∃ e0, e0 ∈ q ∧ e.report = e0.report := by
  match q with
  | [] =>
    simp [workerStep] at he
  | hd :: rest =>
    simp only [workerStep] at he
    by_cases hw : now < hd.nextAttempt
    · rw [if_pos hw] at he
      exact ⟨e, he, rfl⟩
    · rw [if_neg hw] at he
      cases res with
      | success => exact ⟨e, List.mem_cons_of_mem hd he, rfl⟩
      | permanentFailure => exact ⟨e, List.mem_cons_of_mem hd he, rfl⟩
      | transientFailure =>
        by_cases hx : cfg.maxAttempts ≤ hd.failureCount + 1 ∨ cfg.maxLifetime ≤ now - hd.firstAttempt
        · rw [if_pos hx] at he
          exact ⟨e, List.mem_cons_of_mem hd he, rfl⟩
        · rw [if_neg hx] at he
          rcases List.mem_cons.mp he with h | h
          · exact ⟨hd, List.mem_cons_self hd rest, by rw [h]⟩
          · exact ⟨e, List.mem_cons_of_mem hd h, rfl⟩

/-- C8: dedup identifiers are stable: a worker step never changes the
`EndpointReport` of any queued entry; across any sequence of sender
transitions every queued entry's report is one that was on the initial
queue or was built (dedup id fixed) by an enqueue; and `buildReport`
carries the identifier it was given unchanged. -/
theorem dedup_id_stable_across_retries (cfg : RetryConfig) :
    (∀ now res q e, e ∈ workerStep cfg now res q →
      ∃ e0, e0 ∈ q ∧ e.report = e0.report) ∧
    (∀ inputs q e, e ∈ senderRun cfg q inputs →
      e.report ∈ q.map QueueEntry.report ++ builtReports inputs) ∧
    (∀ b i, (buildReport b i).dedupId = i) := by
  refine ⟨fun now res q e he => workerStep_preserves_reports cfg now res q e he, ?_, fun b i => rfl⟩
  intro inputs
  induction inputs with
  | nil =>
    intro q e he
    simp [senderRun] at he
    simp [builtReports]
    exact ⟨e, he, rfl⟩
  | cons inp rest ih =>
    intro q e he
    unfold senderRun at he
    cases inp with
    | work now res =>
      have h2 := ih (senderStep cfg q (SenderInput.work now res)) e he
      rw [List.mem_append] at h2
      rcases h2 with h2 | h2
      · rw [List.mem_map] at h2
        obtain ⟨e1, he1, hrep⟩ := h2
        obtain ⟨e0, he0, hr0⟩ := workerStep_preserves_reports cfg now res q e1 he1
        rw [List.mem_append]
        left
        rw [List.mem_map]
        refine ⟨e0, he0, ?_⟩
        rw [← hrep, hr0]
      · rw [List.mem_append]
        right
        simpa [builtReports] using h2
    | enq b i now =>
      have h2 := ih (senderStep cfg q (SenderInput.enq b i now)) e he
      rw [List.mem_append] at h2
      rcases h2 with h2 | h2
      · rw [List.mem_map] at h2
        obtain ⟨e1, he1, hrep⟩ := h2
        simp only [senderStep, enqueueReport, List.mem_append, List.mem_singleton] at he1
        rcases he1 with he1 | he1
        · rw [List.mem_append]
          left
          rw [List.mem_map]
          exact ⟨e1, he1, hrep⟩
        · rw [List.mem_append]
          right
          subst he1
          simp [builtReports] at hrep ⊢
          left
          exact hrep.symm
      · rw [List.mem_append]
        right
        simp [builtReports]
        right
        exact h2

/-- Closed witness: one enqueue followed by two transient failures keeps
the entry's dedup id fixed at its build value. -/
theorem dedup_id_stable_across_retries_witness :
    ∀ e, e ∈ senderRun ⟨1, 60, 2, 10, 1000⟩ []
        [SenderInput.enq "batch" "uuid-1" 0,
         SenderInput.work 0 SendResult.transientFailure,
         SenderInput.work 5 SendResult.transientFailure] →
      e.report ∈ ([] : List QueueEntry).map QueueEntry.report ++
        builtReports [SenderInput.enq "batch" "uuid-1" 0,
          SenderInput.work 0 SendResult.transientFailure,
          SenderInput.work 5 SendResult.transientFailure] :=
  fun e he => (dedup_id_stable_across_retries ⟨1, 60, 2, 10, 1000⟩).2.1
    [SenderInput.enq "batch" "uuid-1" 0,
     SenderInput.work 0 SendResult.transientFailure,
     SenderInput.work 5 SendResult.transientFailure] [] e he

end UbbSender

namespace UbbAgg

/-- Label-set equality unfolded to mutual containment. -/
theorem labelSetEq_iff (a b : List (String × String)) :
    labelSetEq a b = true ↔ ((∀ x ∈ a, x ∈ b) ∧ ∀ x ∈ b, x ∈ a) := by
  simp [labelSetEq, List.all_eq_true]

/-- Label-set equality is reflexive. -/
theorem labelSetEq_refl (a : List (String × String)) : labelSetEq a a = true := by
  rw [labelSetEq_iff]
  exact ⟨fun x hx => hx, fun x hx => hx⟩

/-- Label-set equality is symmetric. -/
theorem labelSetEq_symm {a b : List (String × String)} (h : labelSetEq a b = true) :
    labelSetEq b a = true := by
  rw [labelSetEq_iff] at h ⊢
  exact ⟨h.2, h.1⟩

/-- Label-set equality is transitive. -/
theorem labelSetEq_trans {a b c : List (String × String)}
    (h1 : labelSetEq a b = true) (h2 : labelSetEq b c = true) :
    labelSetEq a c = true := by
  rw [labelSetEq_iff] at h1 h2 ⊢
  exact ⟨fun x hx => h2.1 x (h1.1 x hx), fun x hx => h1.2 x (h2.2 x hx)⟩

/-- Bucket-key agreement unfolded. -/
theorem sameKey_iff (n1 : String) (l1 : List (String × String))
    (n2 : String) (l2 : List (String × String)) :
    sameKey n1 l1 n2 l2 = true ↔ (n1 = n2 ∧ labelSetEq l1 l2 = true) := by
  simp [sameKey]

/-- Bucket-key agreement is reflexive. -/
theorem sameKey_refl (n : String) (l : List (String × String)) :
    sameKey n l n l = true := by
  rw [sameKey_iff]
  exact ⟨rfl, labelSetEq_refl l⟩

/-- Bucket-key agreement is symmetric. -/
theorem sameKey_symm {n1 : String} {l1 : List (String × String)}
    {n2 : String} {l2 : List (String × String)}
    (h : sameKey n1 l1 n2 l2 = true) : sameKey n2 l2 n1 l1 = true := by
  rw [sameKey_iff] at h ⊢
  exact ⟨h.1.symm, labelSetEq_symm h.2⟩

/-- Bucket-key agreement is transitive. -/
theorem sameKey_trans {n1 : String} {l1 : List (String × String)}
    {n2 : String} {l2 : List (String × String)}
    {n3 : String} {l3 : List (String × String)}
    (h1 : sameKey n1 l1 n2 l2 = true) (h2 : sameKey n2 l2 n3 l3 = true) :
    sameKey n1 l1 n3 l3 = true := by
  rw [sameKey_iff] at h1 h2 ⊢
  exact ⟨h1.1.trans h2.1, labelSetEq_trans h1.2 h2.2⟩

/-- A key not agreeing with another sees the disagreement both ways. -/
theorem sameKey_false_symm {n1 : String} {l1 : List (String × String)}
    {n2 : String} {l2 : List (String × String)}
    (h : sameKey n1 l1 n2 l2 = false) : sameKey n2 l2 n1 l1 = false := by
  cases hs : sameKey n2 l2 n1 l1 with
  | false => rfl
  | true => rw [sameKey_symm hs] at h; cases h

/-- After `setLast` at key `(rn, rl)`, a query key agreeing with it reads
the stored time. -/
theorem setLast_find_same (m : List ((String × List (String × String)) × Int))
    (rn : String) (rl : List (String × String)) (t : Int)
    (qn : String) (ql : List (String × String))
    (hq : sameKey qn ql rn rl = true) :
    ((setLast m rn rl t).find? (fun kv => sameKey kv.1.1 kv.1.2 qn ql)).map
        (fun kv => kv.2) = some t := by
  induction m with
  | nil =>
    simp [setLast, List.find?, sameKey_symm hq]
  | cons kv rest ih =>
    by_cases hm : sameKey kv.1.1 kv.1.2 rn rl = true
    · have hkq : sameKey kv.1.1 kv.1.2 qn ql = true :=
        sameKey_trans hm (sameKey_symm hq)
      simp [setLast, hm, List.find?, hkq]
    · have hm' : sameKey kv.1.1 kv.1.2 rn rl = false := by
        cases h : sameKey kv.1.1 kv.1.2 rn rl with
        | false => rfl
        | true => exact absurd h hm
      have hkq : sameKey kv.1.1 kv.1.2 qn ql = false := by
        cases h : sameKey kv.1.1 kv.1.2 qn ql with
        | false => rfl
        | true => exact absurd (sameKey_trans h hq) hm
      simpa [setLast, hm', List.find?, hkq] using ih

end UbbAgg

namespace UbbAgg

/-- After `setLast` at key `(rn, rl)`, a query key not agreeing with it
reads what it read before. -/
theorem setLast_find_other (m : List ((String × List (String × String)) × Int))
    (rn : String) (rl : List (String × String)) (t : Int)
    (qn : String) (ql : List (String × String))
    (hq : sameKey qn ql rn rl = false) :
    ((setLast m rn rl t).find? (fun kv => sameKey kv.1.1 kv.1.2 qn ql)).map
        (fun kv => kv.2) =
      (m.find? (fun kv => sameKey kv.1.1 kv.1.2 qn ql)).map (fun kv => kv.2) := by
  induction m with
  | nil =>
    simp [setLast, List.find?, sameKey_false_symm hq]
  | cons kv rest ih =>
    by_cases hm : sameKey kv.1.1 kv.1.2 rn rl = true
    · have hkq : sameKey kv.1.1 kv.1.2 qn ql = false := by
        cases h : sameKey kv.1.1 kv.1.2 qn ql with
        | false => rfl
        | true =>
          have : sameKey qn ql rn rl = true := sameKey_trans (sameKey_symm h) hm
          rw [this] at hq
          cases hq
      simp [setLast, hm, List.find?, hkq]
    · have hm' : sameKey kv.1.1 kv.1.2 rn rl = false := by
        cases h : sameKey kv.1.1 kv.1.2 rn rl with
        | false => rfl
        | true => exact absurd h hm
      cases hkq : sameKey kv.1.1 kv.1.2 qn ql with
      | true => simp [setLast, hm', List.find?, hkq]
      | false => simpa [setLast, hm', List.find?, hkq] using ih

/-- `lastOf` reads the same time for agreeing query keys. -/
theorem lastOf_congr (st : AggregatorState)
    {qn : String} {ql : List (String × String)}
    {qn2 : String} {ql2 : List (String × String)}
    (h : sameKey qn ql qn2 ql2 = true) :
    lastOf st qn ql = lastOf st qn2 ql2 := by
  unfold lastOf
  induction st.lastAccepted with
  | nil => rfl
  | cons kv rest ih =>
    cases hk : sameKey kv.1.1 kv.1.2 qn ql with
    | true =>
      have hk2 : sameKey kv.1.1 kv.1.2 qn2 ql2 = true := sameKey_trans hk h
      simp [List.find?, hk, hk2]
    | false =>
      have hk2 : sameKey kv.1.1 kv.1.2 qn2 ql2 = false := by
        cases h2 : sameKey kv.1.1 kv.1.2 qn2 ql2 with
        | false => rfl
        | true =>
          have : sameKey kv.1.1 kv.1.2 qn ql = true :=
            sameKey_trans h2 (sameKey_symm h)
          rw [this] at hk
          cases hk
      simpa [List.find?, hk, hk2] using ih

/-- Case analysis of one `accept` call: either the report is accepted, the
bucket's `lastAcceptedEndTime` is set to `max(prev, endTime)`, the start
time is at or after the previous `lastAcceptedEndTime` and the range is
well formed; or the call rejects and leaves the state unchanged. -/
theorem accept_cases (schema : MetricSchema) (st : AggregatorState) (r : MetricReport) :
    ((accept schema st r).2 = AcceptResult.accepted ∧
      (accept schema st r).1.lastAccepted =
        setLast st.lastAccepted r.name r.labels
          (match lastOf st r.name r.labels with
           | some t => max t r.endTime
           | none => r.endTime) ∧
      (∀ t, lastOf st r.name r.labels = some t → t ≤ r.startTime) ∧
      r.startTime ≤ r.endTime) ∨
    ((accept schema st r).1 = st ∧ (accept schema st r).2 ≠ AcceptResult.accepted) := by
  unfold accept
  cases hk : schema.lookup r.name with
  | none =>
    refine Or.inr ⟨?_, ?_⟩
    · trivial
    · simp
  | some k =>
    by_cases hkind : valueKind r.value ≠ k
    · simp only [if_pos hkind]
      refine Or.inr ⟨?_, ?_⟩
      · trivial
      · simp
    · simp only [if_neg hkind]
      cases hlast : lastOf st r.name r.labels with
      | some t =>
        by_cases hov : r.startTime < t
        · simp only [if_pos hov]
          refine Or.inr ⟨?_, ?_⟩
          · trivial
          · simp
        · simp only [if_neg hov]
          by_cases hrange : r.endTime < r.startTime
          · simp only [if_pos hrange]
            refine Or.inr ⟨?_, ?_⟩
            · trivial
            · simp
          · simp only [if_neg hrange]
            refine Or.inl ⟨?_, ?_, ?_, le_of_not_lt hrange⟩
            · trivial
            · trivial
            · intro u hu
              cases hu
              exact le_of_not_lt hov
      | none =>
        by_cases hrange : r.endTime < r.startTime
        · simp only [if_pos hrange]
          refine Or.inr ⟨?_, ?_⟩
          · trivial
          · simp
        · simp only [if_neg hrange]
          refine Or.inl ⟨?_, ?_, ?_, le_of_not_lt hrange⟩
          · trivial
          · trivial
          · intro u hu
            cases hu

end UbbAgg

namespace UbbAgg

/-- One `accept` call never decreases any bucket's
`lastAcceptedEndTime`. -/
theorem accept_last_mono (schema : MetricSchema) (st : AggregatorState) (r : MetricReport)
    (qn : String) (ql : List (String × String)) (t : Int)
    (h : lastOf st qn ql = some t) :
    ∃ u, lastOf (accept schema st r).1 qn ql = some u ∧ t ≤ u := by
  rcases accept_cases schema st r with ⟨_, hset, _, _⟩ | ⟨hst, _⟩
  · by_cases hq : sameKey qn ql r.name r.labels = true
    · have hcongr : lastOf st qn ql = lastOf st r.name r.labels := lastOf_congr st hq
      rw [h] at hcongr
      refine ⟨max t r.endTime, ?_, le_max_left t r.endTime⟩
      unfold lastOf
      rw [hset, ← hcongr]
      exact setLast_find_same st.lastAccepted r.name r.labels (max t r.endTime) qn ql hq
    · have hq' : sameKey qn ql r.name r.labels = false := by
        cases hval : sameKey qn ql r.name r.labels with
        | false => rfl
        | true => exact absurd hval hq
      refine ⟨t, ?_, le_refl t⟩
      unfold lastOf
      rw [hset]
      have hother := setLast_find_other st.lastAccepted r.name r.labels
        (match lastOf st r.name r.labels with
         | some v => max v r.endTime
         | none => r.endTime) qn ql hq'
      rw [hother]
      exact h
  · rw [hst]
    exact ⟨t, h, le_refl t⟩

/-- An accepted report leaves its bucket's `lastAcceptedEndTime` at or
beyond its own end time; its start is at or after the previous
`lastAcceptedEndTime` and its range is well formed. -/
theorem accept_accepted_last (schema : MetricSchema) (st : AggregatorState) (r : MetricReport)
    (h : (accept schema st r).2 = AcceptResult.accepted) :
    ∃ u, lastOf (accept schema st r).1 r.name r.labels = some u ∧
      r.endTime ≤ u ∧ (∀ t, lastOf st r.name r.labels = some t → t ≤ r.startTime) ∧
      r.startTime ≤ r.endTime := by
  rcases accept_cases schema st r with ⟨_, hset, hstart, hrange⟩ | ⟨_, hrej⟩
  · cases hlast : lastOf st r.name r.labels with
    | some t =>
      refine ⟨max t r.endTime, ?_, le_max_right t r.endTime, ?_, hrange⟩
      · unfold lastOf
        rw [hset, hlast]
        exact setLast_find_same st.lastAccepted r.name r.labels (max t r.endTime)
          r.name r.labels (sameKey_refl r.name r.labels)
      · intro u hu
        cases hu
        exact hstart t hlast
    | none =>
      refine ⟨r.endTime, ?_, le_refl r.endTime, ?_, hrange⟩
      · unfold lastOf
        rw [hset, hlast]
        exact setLast_find_same st.lastAccepted r.name r.labels r.endTime
          r.name r.labels (sameKey_refl r.name r.labels)
      · intro u hu
        cases hu
  · exact absurd h hrej

/-- `acceptAll` over a concatenation processes the parts in order. -/
theorem acceptAll_append (schema : MetricSchema) (st : AggregatorState)
    (l1 l2 : List MetricReport) :
    acceptAll schema st (l1 ++ l2) = acceptAll schema (acceptAll schema st l1) l2 := by
  induction l1 generalizing st with
  | nil => rfl
  | cons r rest ih => simp [acceptAll, ih]

/-- A whole sequence of `accept` calls never decreases any bucket's
`lastAcceptedEndTime`. -/
theorem acceptAll_last_mono (schema : MetricSchema) (st : AggregatorState)
    (rs : List MetricReport)
    (qn : String) (ql : List (String × String)) (t : Int)
    (h : lastOf st qn ql = some t) :
    ∃ u, lastOf (acceptAll schema st rs) qn ql = some u ∧ t ≤ u := by
  induction rs generalizing st t with
  | nil => exact ⟨t, h, le_refl t⟩
  | cons r rest ih =>
    obtain ⟨u, hu, htu⟩ := accept_last_mono schema st r qn ql t h
    obtain ⟨v, hv, huv⟩ := ih (accept schema st r).1 u hu
    exact ⟨v, hv, le_trans htu huv⟩

/-- The state before step `n + 1` is the state before step `n` advanced by
report `n`. -/
theorem stateAt_succ (schema : MetricSchema) (st0 : AggregatorState)
    (rs : List MetricReport) (n : Nat) (r : MetricReport) (hr : rs[n]? = some r) :
    stateAt schema st0 rs (n + 1) = (accept schema (stateAt schema st0 rs n) r).1 := by
  unfold stateAt
  rw [List.take_succ, hr]
  rw [acceptAll_append]
  rfl

/-- Past the end of the sequence the state no longer changes. -/
theorem stateAt_succ_none (schema : MetricSchema) (st0 : AggregatorState)
    (rs : List MetricReport) (n : Nat) (hr : rs[n]? = none) :
    stateAt schema st0 rs (n + 1) = stateAt schema st0 rs n := by
  unfold stateAt
  rw [List.take_succ, hr]
  simp

/-- Between any two instants of the run, no bucket's
`lastAcceptedEndTime` decreases. -/
theorem stateAt_last_mono (schema : MetricSchema) (st0 : AggregatorState)
    (rs : List MetricReport) {i j : Nat} (hij : i ≤ j)
    (qn : String) (ql : List (String × String)) (t : Int)
    (h : lastOf (stateAt schema st0 rs i) qn ql = some t) :
    ∃ u, lastOf (stateAt schema st0 rs j) qn ql = some u ∧ t ≤ u := by
  have hj : j = i + (j - i) := by omega
  rw [hj]
  unfold stateAt
  rw [List.take_add, acceptAll_append]
  exact acceptAll_last_mono schema (stateAt schema st0 rs i) _ qn ql t h

end UbbAgg

namespace UbbAgg

/-- A report of a configured metric with the right value kind whose start
time lies before its bucket's `lastAcceptedEndTime` is rejected as
`overlappingWindow` with the state unchanged. -/
theorem accept_overlap (schema : MetricSchema) (st : AggregatorState) (r : MetricReport)
    (k : ValueKind) (t : Int)
    (hk : schema.lookup r.name = some k) (hkind : valueKind r.value = k)
    (hlast : lastOf st r.name r.labels = some t) (hov : r.startTime < t) :
    accept schema st r = (st, AcceptResult.rejected RejectReason.overlappingWindow) := by
  unfold accept
  rw [hk]
  simp [hkind, hlast, hov]

/-- C1: along any sequence of `accept` calls, (i) any two accepted reports
of the same bucket key have non-decreasing end times in sequence order;
(ii) no step decreases a bucket's `lastAcceptedEndTime`; (iii) a report of
a configured metric whose start time lies before its bucket's
`lastAcceptedEndTime` is rejected as `overlappingWindow` and the state
stays unchanged; and (iv) every rejection leaves the state unchanged. -/
theorem aggregator_monotone_and_overlap_reject (schema : MetricSchema)
    (st0 : AggregatorState) (rs : List MetricReport) :
    (∀ i j ri rj, i < j → rs[i]? = some ri → rs[j]? = some rj →
      resultAt schema st0 rs i = some AcceptResult.accepted →
      resultAt schema st0 rs j = some AcceptResult.accepted →
      sameKey ri.name ri.labels rj.name rj.labels = true →
      ri.endTime ≤ rj.endTime) ∧
    (∀ n qn ql t, lastOf (stateAt schema st0 rs n) qn ql = some t →
      ∃ u, lastOf (stateAt schema st0 rs (n + 1)) qn ql = some u ∧ t ≤ u) ∧
    (∀ n r k t, rs[n]? = some r →
      schema.lookup r.name = some k → valueKind r.value = k →
      lastOf (stateAt schema st0 rs n) r.name r.labels = some t →
      r.startTime < t →
      resultAt schema st0 rs n = some (AcceptResult.rejected RejectReason.overlappingWindow) ∧
      stateAt schema st0 rs (n + 1) = stateAt schema st0 rs n) ∧
    (∀ n r, rs[n]? = some r →
      (accept schema (stateAt schema st0 rs n) r).2 ≠ AcceptResult.accepted →
      stateAt schema st0 rs (n + 1) = stateAt schema st0 rs n) := by
  refine ⟨?_, ?_, ?_, ?_⟩
  · intro i j ri rj hij hri hrj hacci haccj hkey
    have hacci' : (accept schema (stateAt schema st0 rs i) ri).2 = AcceptResult.accepted := by
      unfold resultAt at hacci
      rw [hri] at hacci
      simpa using hacci
    have haccj' : (accept schema (stateAt schema st0 rs j) rj).2 = AcceptResult.accepted := by
      unfold resultAt at haccj
      rw [hrj] at haccj
      simpa using haccj
    obtain ⟨u, hu, hendu, _, _⟩ :=
      accept_accepted_last schema (stateAt schema st0 rs i) ri hacci'
    rw [← stateAt_succ schema st0 rs i ri hri] at hu
    have hij' : i + 1 ≤ j := hij
    obtain ⟨v, hv, huv⟩ := stateAt_last_mono schema st0 rs hij' ri.name ri.labels u hu
    have hvj : lastOf (stateAt schema st0 rs j) rj.name rj.labels = some v := by
      rw [← lastOf_congr (stateAt schema st0 rs j) hkey]
      exact hv
    obtain ⟨w, _, _, hstartj, hrangej⟩ :=
      accept_accepted_last schema (stateAt schema st0 rs j) rj haccj'
    have hvstart : v ≤ rj.startTime := hstartj v hvj
    calc ri.endTime ≤ u := hendu
      _ ≤ v := huv
      _ ≤ rj.startTime := hvstart
      _ ≤ rj.endTime := hrangej
  · intro n qn ql t h
    cases hr : rs[n]? with
    | some r =>
      rw [stateAt_succ schema st0 rs n r hr]
      exact accept_last_mono schema (stateAt schema st0 rs n) r qn ql t h
    | none =>
      rw [stateAt_succ_none schema st0 rs n hr]
      exact ⟨t, h, le_refl t⟩
  · intro n r k t hr hk hkind hlast hov
    have hacc := accept_overlap schema (stateAt schema st0 rs n) r k t hk hkind hlast hov
    constructor
    · unfold resultAt
      rw [hr]
      simp [hacc]
    · rw [stateAt_succ schema st0 rs n r hr, hacc]
  · intro n r hr hrej
    rw [stateAt_succ schema st0 rs n r hr]
    rcases accept_cases schema (stateAt schema st0 rs n) r with ⟨hacc, _⟩ | ⟨hst, _⟩
    · exact absurd hacc hrej
    · exact hst

end UbbAgg

namespace UbbAgg

/-- Closed witness for the C1 theorem: two accepted reports of one key in
order, then an overlapping report rejected without state change. -/
theorem aggregator_monotone_and_overlap_reject_witness :
    (⟨"req", ScalarValue.int64 5, 0, 10, []⟩ : MetricReport).endTime ≤
      (⟨"req", ScalarValue.int64 7, 10, 20, []⟩ : MetricReport).endTime ∧
    (resultAt [("req", ValueKind.int64Kind)] ⟨[], []⟩
        [⟨"req", ScalarValue.int64 5, 0, 10, []⟩, ⟨"req", ScalarValue.int64 7, 10, 20, []⟩,
         ⟨"req", ScalarValue.int64 1, 5, 30, []⟩] 2 =
      some (AcceptResult.rejected RejectReason.overlappingWindow) ∧
     stateAt [("req", ValueKind.int64Kind)] ⟨[], []⟩
        [⟨"req", ScalarValue.int64 5, 0, 10, []⟩, ⟨"req", ScalarValue.int64 7, 10, 20, []⟩,
         ⟨"req", ScalarValue.int64 1, 5, 30, []⟩] 3 =
      stateAt [("req", ValueKind.int64Kind)] ⟨[], []⟩
        [⟨"req", ScalarValue.int64 5, 0, 10, []⟩, ⟨"req", ScalarValue.int64 7, 10, 20, []⟩,
         ⟨"req", ScalarValue.int64 1, 5, 30, []⟩] 2) := by
  constructor
  · exact (aggregator_monotone_and_overlap_reject [("req", ValueKind.int64Kind)] ⟨[], []⟩
      [⟨"req", ScalarValue.int64 5, 0, 10, []⟩, ⟨"req", ScalarValue.int64 7, 10, 20, []⟩,
       ⟨"req", ScalarValue.int64 1, 5, 30, []⟩]).1 0 1
      ⟨"req", ScalarValue.int64 5, 0, 10, []⟩ ⟨"req", ScalarValue.int64 7, 10, 20, []⟩
      (by decide) rfl rfl (by decide) (by decide) (by decide)
  · exact (aggregator_monotone_and_overlap_reject [("req", ValueKind.int64Kind)] ⟨[], []⟩
      [⟨"req", ScalarValue.int64 5, 0, 10, []⟩, ⟨"req", ScalarValue.int64 7, 10, 20, []⟩,
       ⟨"req", ScalarValue.int64 1, 5, 30, []⟩]).2.2.1 2
      ⟨"req", ScalarValue.int64 1, 5, 30, []⟩ ValueKind.int64Kind 20
      rfl (by decide) rfl (by decide) (by decide)

end UbbAgg

namespace UbbAgg

/-- Looking a key up after inserting a report: the first bucket agreeing
with the report absorbs it; other keys see the bucket list unchanged. -/
theorem lookupAgg_insert (bs : List MetricReport) (r : MetricReport)
    (qn : String) (ql : List (String × String)) :
    lookupAgg (insertReport bs r) qn ql =
      (if sameKey r.name r.labels qn ql then
        (match lookupAgg bs qn ql with
         | some b => some (combine b r)
         | none => some r)
      else lookupAgg bs qn ql) := by
  induction bs with
  | nil =>
    by_cases hq : sameKey r.name r.labels qn ql
    · simp [insertReport, lookupAgg, List.find?, hq]
    · simp [insertReport, lookupAgg, List.find?, hq]
  | cons b rest ih =>
    by_cases hbr : sameKey b.name b.labels r.name r.labels
    · by_cases hbq : sameKey b.name b.labels qn ql
      · have hrq : sameKey r.name r.labels qn ql = true :=
          sameKey_trans (sameKey_symm hbr) hbq
        simp [insertReport, lookupAgg, List.find?, hbr, hbq, hrq, combine]
      · have hrq : ¬sameKey r.name r.labels qn ql = true := by
          intro h
          exact hbq (sameKey_trans hbr h)
        simp [insertReport, lookupAgg, List.find?, hbr, hbq, hrq, combine]
    · by_cases hbq : sameKey b.name b.labels qn ql
      · have hrq : ¬sameKey r.name r.labels qn ql = true := by
          intro h
          exact hbr (sameKey_trans hbq (sameKey_symm h))
        simp [insertReport, lookupAgg, List.find?, hbr, hbq, hrq]
      · have ih' := ih
        simp only [lookupAgg, List.find?] at ih' ⊢
        simp [insertReport, hbr, hbq]
        by_cases hrq : sameKey r.name r.labels qn ql
        · simp [hrq] at ih' ⊢
          exact ih'
        · simp [hrq] at ih' ⊢
          exact ih'

/-- Folding a window into buckets, characterized per key: relative to the
starting bucket list, the bucket of a key is the combination of its
previous value (if any) with the key's reports in window order. -/
theorem agg_accum (rs : List MetricReport) (acc : List MetricReport)
    (qn : String) (ql : List (String × String)) :
    lookupAgg (rs.foldl insertReport acc) qn ql =
      (match lookupAgg acc qn ql with
       | some b => some (List.foldl combine b (keyFilter rs qn ql))
       | none =>
         match keyFilter rs qn ql with
         | [] => none
         | h :: t => some (List.foldl combine h t)) := by
  induction rs generalizing acc with
  | nil =>
    cases h : lookupAgg acc qn ql with
    | some b => simp [keyFilter, h]
    | none => simp [keyFilter, h]
  | cons r rest ih =>
    have step : List.foldl insertReport acc (r :: rest) =
        List.foldl insertReport (insertReport acc r) rest := rfl
    rw [step, ih (insertReport acc r), lookupAgg_insert acc r qn ql]
    by_cases hrq : sameKey r.name r.labels qn ql
    · have hkf : keyFilter (r :: rest) qn ql = r :: keyFilter rest qn ql := by
        simp [keyFilter, List.filter_cons, hrq]
      rw [hkf]
      cases h : lookupAgg acc qn ql with
      | some b => simp [hrq]
      | none => simp [hrq]
    · have hkf : keyFilter (r :: rest) qn ql = keyFilter rest qn ql := by
        simp [keyFilter, List.filter_cons, hrq]
      rw [hkf]
      simp [hrq]

end UbbAgg

namespace UbbAgg

/-- Combining preserves the first report's name and label set. -/
theorem foldl_combine_name_labels (t : List MetricReport) (b : MetricReport) :
    (List.foldl combine b t).name = b.name ∧ (List.foldl combine b t).labels = b.labels := by
  induction t generalizing b with
  | nil => exact ⟨rfl, rfl⟩
  | cons r rest ih =>
    have := ih (combine b r)
    simpa [combine] using this

/-- The start time of a combined bucket is the running minimum of the
start times. -/
theorem foldl_combine_start (t : List MetricReport) (b : MetricReport) :
    (List.foldl combine b t).startTime =
      List.foldl (fun m r => min m r.startTime) b.startTime t := by
  induction t generalizing b with
  | nil => rfl
  | cons r rest ih =>
    have := ih (combine b r)
    simpa [combine] using this

/-- The end time of a combined bucket is the running maximum of the end
times. -/
theorem foldl_combine_end (t : List MetricReport) (b : MetricReport) :
    (List.foldl combine b t).endTime =
      List.foldl (fun m r => max m r.endTime) b.endTime t := by
  induction t generalizing b with
  | nil => rfl
  | cons r rest ih =>
    have := ih (combine b r)
    simpa [combine] using this

/-- The value of a combined bucket of `int64` reports is the sum of the
payloads. -/
theorem foldl_combine_value_int (t : List MetricReport) (b : MetricReport) (v : Int)
    (hb : b.value = ScalarValue.int64 v)
    (ht : ∀ r ∈ t, valueKind r.value = ValueKind.int64Kind) :
    (List.foldl combine b t).value = ScalarValue.int64 (v + (intVals t).sum) := by
  induction t generalizing b v with
  | nil => simp [hb, intVals]
  | cons r rest ih =>
    have hr : valueKind r.value = ValueKind.int64Kind := ht r (List.mem_cons_self r rest)
    cases hrv : r.value with
    | double w => rw [hrv] at hr; cases hr
    | int64 w =>
      have hcomb : (combine b r).value = ScalarValue.int64 (v + w) := by
        simp [combine, hb, hrv, addValue]
      have := ih (combine b r) (v + w) hcomb
        (fun s hs => ht s (List.mem_cons_of_mem r hs))
      rw [List.foldl_cons, this]
      have hvals : intVals (r :: rest) = w :: intVals rest := by
        simp [intVals, List.filterMap_cons, hrv]
      rw [hvals]
      simp [List.sum_cons]
      ring

/-- The value of a combined bucket of `double` reports is the sum of the
payloads. -/
theorem foldl_combine_value_rat (t : List MetricReport) (b : MetricReport) (v : Rat)
    (hb : b.value = ScalarValue.double v)
    (ht : ∀ r ∈ t, valueKind r.value = ValueKind.doubleKind) :
    (List.foldl combine b t).value = ScalarValue.double (v + (ratVals t).sum) := by
  induction t generalizing b v with
  | nil => simp [hb, ratVals]
  | cons r rest ih =>
    have hr : valueKind r.value = ValueKind.doubleKind := ht r (List.mem_cons_self r rest)
    cases hrv : r.value with
    | int64 w => rw [hrv] at hr; cases hr
    | double w =>
      have hcomb : (combine b r).value = ScalarValue.double (v + w) := by
        simp [combine, hb, hrv, addValue]
      have := ih (combine b r) (v + w) hcomb
        (fun s hs => ht s (List.mem_cons_of_mem r hs))
      rw [List.foldl_cons, this]
      have hvals : ratVals (r :: rest) = w :: ratVals rest := by
        simp [ratVals, List.filterMap_cons, hrv]
      rw [hvals]
      simp [List.sum_cons]
      ring

end UbbAgg

namespace UbbAgg

/-- The optional-minimum fold over a nonempty list is the plain minimum
fold seeded with the head. -/
theorem minStart_some (t : List MetricReport) (o : Int) :
    List.foldl (fun acc r =>
        some (match acc with | none => r.startTime | some m => min m r.startTime))
      (some o) t =
      some (List.foldl (fun m r => min m r.startTime) o t) := by
  induction t generalizing o with
  | nil => rfl
  | cons r rest ih => simpa using ih (min o r.startTime)

/-- `minStart?` of a nonempty list in terms of the plain fold. -/
theorem minStart_cons (h : MetricReport) (t : List MetricReport) :
    minStart? (h :: t) = some (List.foldl (fun m r => min m r.startTime) h.startTime t) := by
  unfold minStart?
  rw [List.foldl_cons]
  exact minStart_some t h.startTime

/-- The optional-maximum fold over a nonempty list is the plain maximum
fold seeded with the head. -/
theorem maxEnd_some (t : List MetricReport) (o : Int) :
    List.foldl (fun acc r =>
        some (match acc with | none => r.endTime | some m => max m r.endTime))
      (some o) t =
      some (List.foldl (fun m r => max m r.endTime) o t) := by
  induction t generalizing o with
  | nil => rfl
  | cons r rest ih => simpa using ih (max o r.endTime)

/-- `maxEnd?` of a nonempty list in terms of the plain fold. -/
theorem maxEnd_cons (h : MetricReport) (t : List MetricReport) :
    maxEnd? (h :: t) = some (List.foldl (fun m r => max m r.endTime) h.endTime t) := by
  unfold maxEnd?
  rw [List.foldl_cons]
  exact maxEnd_some t h.endTime

/-- `minStart?` is invariant under permutation of the reports. -/
theorem minStart_perm {l1 l2 : List MetricReport} (h : l1.Perm l2) :
    minStart? l1 = minStart? l2 := by
  unfold minStart?
  refine h.foldl_eq' ?_ none
  intro x _ y _ z
  cases z with
  | none => simp [min_comm x.startTime y.startTime]
  | some m => simp [min_right_comm m x.startTime y.startTime]

/-- `maxEnd?` is invariant under permutation of the reports. -/
theorem maxEnd_perm {l1 l2 : List MetricReport} (h : l1.Perm l2) :
    maxEnd? l1 = maxEnd? l2 := by
  unfold maxEnd?
  refine h.foldl_eq' ?_ none
  intro x _ y _ z
  cases z with
  | none => simp [max_comm x.endTime y.endTime]
  | some m => simp [max_assoc, max_comm x.endTime y.endTime]

end UbbAgg

namespace UbbAgg

/-- A key with no reports in the window has no bucket in the aggregate. -/
theorem aggregate_key_none (rs : List MetricReport)
    (qn : String) (ql : List (String × String))
    (h : keyFilter rs qn ql = []) :
    lookupAgg (aggregate rs) qn ql = none := by
  have hacc := agg_accum rs [] qn ql
  rw [h] at hacc
  simpa [lookupAgg, List.find?] using hacc

/-- A key with reports in the window has exactly the bucket whose fields
are the key's label set, the minimum start, the maximum end, and the
kind-wise sum of the values. -/
theorem aggregate_key_char (rs : List MetricReport)
    (qn : String) (ql : List (String × String))
    (h : keyFilter rs qn ql ≠ []) :
    ∃ b, lookupAgg (aggregate rs) qn ql = some b ∧
      sameKey b.name b.labels qn ql = true ∧
      minStart? (keyFilter rs qn ql) = some b.startTime ∧
      maxEnd? (keyFilter rs qn ql) = some b.endTime ∧
      sumOfValues (keyFilter rs qn ql) b.value := by
  have hacc := agg_accum rs [] qn ql
  cases hkf : keyFilter rs qn ql with
  | nil => exact absurd hkf h
  | cons hd tl =>
    rw [hkf] at hacc
    have hhd : sameKey hd.name hd.labels qn ql = true := by
      have : hd ∈ keyFilter rs qn ql := by
        rw [hkf]
        exact List.mem_cons_self hd tl
      simpa using List.of_mem_filter this
    have hnl := foldl_combine_name_labels tl hd
    refine ⟨List.foldl combine hd tl, ?_, ?_, ?_, ?_, ?_, ?_⟩
    · simpa [lookupAgg, List.find?] using hacc
    · rw [hnl.1, hnl.2]
      exact hhd
    · rw [minStart_cons, foldl_combine_start]
    · rw [maxEnd_cons, foldl_combine_end]
    · intro hall
      have hhk : valueKind hd.value = ValueKind.int64Kind :=
        hall hd (List.mem_cons_self hd tl)
      cases hdv : hd.value with
      | double w => rw [hdv] at hhk; cases hhk
      | int64 w =>
        have := foldl_combine_value_int tl hd w hdv
          (fun s hs => hall s (List.mem_cons_of_mem hd hs))
        rw [this]
        have hvals : intVals (hd :: tl) = w :: intVals tl := by
          simp [intVals, List.filterMap_cons, hdv]
        rw [hvals, List.sum_cons]
    · intro hall
      have hhk : valueKind hd.value = ValueKind.doubleKind :=
        hall hd (List.mem_cons_self hd tl)
      cases hdv : hd.value with
      | int64 w => rw [hdv] at hhk; cases hhk
      | double w =>
        have := foldl_combine_value_rat tl hd w hdv
          (fun s hs => hall s (List.mem_cons_of_mem hd hs))
        rw [this]
        have hvals : ratVals (hd :: tl) = w :: ratVals tl := by
          simp [ratVals, List.filterMap_cons, hdv]
        rw [hvals, List.sum_cons]

/-- Within one bucket key of an aligned window, every report carries the
same value kind. -/
theorem keyFilter_kind_uniform (rs : List MetricReport)
    (qn : String) (ql : List (String × String)) (hal : alignedOn rs) :
    ∀ r ∈ keyFilter rs qn ql, ∀ s ∈ keyFilter rs qn ql,
      valueKind r.value = valueKind s.value := by
  intro r hr s hs
  have hr' : r ∈ rs := List.mem_of_mem_filter hr
  have hs' : s ∈ rs := List.mem_of_mem_filter hs
  have hrp : sameKey r.name r.labels qn ql = true := by simpa using List.of_mem_filter hr
  have hsp : sameKey s.name s.labels qn ql = true := by simpa using List.of_mem_filter hs
  exact hal r hr' s hs' (sameKey_trans hrp (sameKey_symm hsp))

end UbbAgg

namespace UbbAgg

/-- C2: aggregating a window gives, per bucket key, a single bucket whose
value is the kind-wise sum of the key's report values, whose start time is
the minimum of their start times, whose end time is the maximum of their
end times, and whose label set is the key's; keys without reports get no
bucket; and for windows whose per-key value kinds agree, aggregating any
permutation of the same reports gives identical per-key summaries, so the
batch contents are independent of arrival order. -/
theorem aggregate_per_key_and_permutation :
    (∀ rs (qn : String) (ql : List (String × String)),
      keyFilter rs qn ql = [] → lookupAgg (aggregate rs) qn ql = none) ∧
    (∀ rs (qn : String) (ql : List (String × String)),
      keyFilter rs qn ql ≠ [] →
      ∃ b, lookupAgg (aggregate rs) qn ql = some b ∧
        sameKey b.name b.labels qn ql = true ∧
        minStart? (keyFilter rs qn ql) = some b.startTime ∧
        maxEnd? (keyFilter rs qn ql) = some b.endTime ∧
        sumOfValues (keyFilter rs qn ql) b.value) ∧
    (∀ rs rs2, rs.Perm rs2 → alignedOn rs →
      ∀ (qn : String) (ql : List (String × String)),
        keySummary rs qn ql = keySummary rs2 qn ql) := by
  refine ⟨aggregate_key_none, aggregate_key_char, ?_⟩
  intro rs rs2 hperm hal qn ql
  have hkfp : (keyFilter rs qn ql).Perm (keyFilter rs2 qn ql) := by
    unfold keyFilter
    exact hperm.filter (fun r => sameKey r.name r.labels qn ql)
  by_cases hkf : keyFilter rs qn ql = []
  · have hkf2 : keyFilter rs2 qn ql = [] := by
      rw [hkf] at hkfp
      exact hkfp.nil_eq.symm
    unfold keySummary
    rw [aggregate_key_none rs qn ql hkf, aggregate_key_none rs2 qn ql hkf2]
  · have hkf2 : keyFilter rs2 qn ql ≠ [] := by
      intro h2
      rw [h2] at hkfp
      exact hkf hkfp.symm.nil_eq.symm
    obtain ⟨b, hb, _, hbs, hbe, hbv⟩ := aggregate_key_char rs qn ql hkf
    obtain ⟨c, hc, _, hcs, hce, hcv⟩ := aggregate_key_char rs2 qn ql hkf2
    have hstart : b.startTime = c.startTime := by
      have := minStart_perm hkfp
      rw [hbs, hcs] at this
      exact Option.some.inj this
    have hend : b.endTime = c.endTime := by
      have := maxEnd_perm hkfp
      rw [hbe, hce] at this
      exact Option.some.inj this
    have hval : b.value = c.value := by
      obtain ⟨hd, hhd⟩ : ∃ hd, hd ∈ keyFilter rs qn ql :=
        List.exists_mem_of_ne_nil _ hkf
      have huni := keyFilter_kind_uniform rs qn ql hal
      have hvalsperm : (intVals (keyFilter rs qn ql)).Perm (intVals (keyFilter rs2 qn ql)) :=
        hkfp.filterMap _
      have hratsperm : (ratVals (keyFilter rs qn ql)).Perm (ratVals (keyFilter rs2 qn ql)) :=
        hkfp.filterMap _
      cases hk0 : valueKind hd.value with
      | int64Kind =>
        have hall : ∀ r ∈ keyFilter rs qn ql, valueKind r.value = ValueKind.int64Kind :=
          fun r hr => (huni r hr hd hhd).trans hk0
        have hall2 : ∀ r ∈ keyFilter rs2 qn ql, valueKind r.value = ValueKind.int64Kind :=
          fun r hr => hall r (hkfp.mem_iff.mpr hr)
        rw [hbv.1 hall, hcv.1 hall2, hvalsperm.sum_eq]
      | doubleKind =>
        have hall : ∀ r ∈ keyFilter rs qn ql, valueKind r.value = ValueKind.doubleKind :=
          fun r hr => (huni r hr hd hhd).trans hk0
        have hall2 : ∀ r ∈ keyFilter rs2 qn ql, valueKind r.value = ValueKind.doubleKind :=
          fun r hr => hall r (hkfp.mem_iff.mpr hr)
        rw [hbv.2 hall, hcv.2 hall2, hratsperm.sum_eq]
    unfold keySummary
    rw [hb, hc]
    simp [hval, hstart, hend]

/-- Closed witness for the C2 theorem: two reports of one key aggregated
in both orders give the same per-key summary, and the bucket carries sum,
min-start and max-end. -/
theorem aggregate_per_key_and_permutation_witness :
    keySummary [⟨"req", ScalarValue.int64 2, 0, 4, []⟩, ⟨"req", ScalarValue.int64 3, 1, 9, []⟩]
        "req" [] =
      keySummary [⟨"req", ScalarValue.int64 3, 1, 9, []⟩, ⟨"req", ScalarValue.int64 2, 0, 4, []⟩]
        "req" [] ∧
    (∃ b, lookupAgg (aggregate
        [⟨"req", ScalarValue.int64 2, 0, 4, []⟩, ⟨"req", ScalarValue.int64 3, 1, 9, []⟩])
        "req" [] = some b ∧
      sameKey b.name b.labels "req" [] = true ∧
      minStart? (keyFilter
        [⟨"req", ScalarValue.int64 2, 0, 4, []⟩, ⟨"req", ScalarValue.int64 3, 1, 9, []⟩]
        "req" []) = some b.startTime ∧
      maxEnd? (keyFilter
        [⟨"req", ScalarValue.int64 2, 0, 4, []⟩, ⟨"req", ScalarValue.int64 3, 1, 9, []⟩]
        "req" []) = some b.endTime ∧
      sumOfValues (keyFilter
        [⟨"req", ScalarValue.int64 2, 0, 4, []⟩, ⟨"req", ScalarValue.int64 3, 1, 9, []⟩]
        "req" []) b.value) := by
  constructor
  · exact aggregate_per_key_and_permutation.2.2
      [⟨"req", ScalarValue.int64 2, 0, 4, []⟩, ⟨"req", ScalarValue.int64 3, 1, 9, []⟩]
      [⟨"req", ScalarValue.int64 3, 1, 9, []⟩, ⟨"req", ScalarValue.int64 2, 0, 4, []⟩]
      (List.Perm.swap _ _ _) (by unfold alignedOn; decide) "req" []
  · exact aggregate_per_key_and_permutation.2.1
      [⟨"req", ScalarValue.int64 2, 0, 4, []⟩, ⟨"req", ScalarValue.int64 3, 1, 9, []⟩]
      "req" [] (by decide)

end UbbAgg
